import Mathlib

set_option maxRecDepth 8000

/-!
Verification development for the PEG operator core of go-peg (src/ope.go).

The operator algebra and its evaluation (the `parseCore` methods) are
transcribed into a fuel-indexed evaluator over explicit state.  Go strings are
lists of byte values; the mutable `*Values` frame and `*context` are threaded
explicitly; a Go runtime panic (out-of-range index or slice) is the `crash`
outcome, and fuel exhaustion (`fuelOut`) marks runs the unbounded Go recursion
or the unguarded repetition loops would not finish.
-/

namespace Peg

/-- Byte strings of the Go source, modelled as lists of byte values. -/
abbrev GStr := List Nat

/-- Bytes of an ASCII string literal, to write byte strings readably. -/
def bytes (s : String) : GStr :=
  s.data.map Char.toNat

/-- Captured token (`Token` in ope.go): absolute position and matched bytes. -/
structure Token where
  Pos : Nat
  S : GStr

/-- Opaque semantic value (`Any` in ope.go), kept as a small closed type. -/
inductive Val where
  | vstr (s : GStr)
  | vnat (n : Nat)

/-- Semantic-value frame (`Values` in ope.go). -/
structure Values where
  SS : GStr
  Vs : List Val
  Pos : Nat
  S : GStr
  Choice : Nat
  Ts : List Token

/-- Method `Values.Token` of ope.go: the first captured token's text when `Ts`
is non-empty, otherwise the frame's matched substring `S`. -/
def Values.Token (v : Values) : GStr :=
  if h : 0 < v.Ts.length then (v.Ts.get ⟨0, h⟩).S else v.S

/-- Structured errors of ope.go: `OperatorError` and `SequenceError`. -/
inductive Err where
  | opErr (Expected : List GStr) (Got : GStr) (Line Col Length : Nat)
  | seqErr (Errs : List Err)

/-- Operator tree of ope.go.  Named-rule references and the `Rule` machinery
live in a file that is not under src/; only the `rule == nil` branch of
`reference.parseCore` (which is in src/ope.go) is modelled, as `refParam`.
The `user` operator carries its callback (the opaque user-data argument `d`,
threaded through unchanged by every operator, is omitted). -/
inductive Ope where
  | seq (opes : List Ope)
  | cho (opes : List Ope)
  | zom (ope : Ope)
  | oom (ope : Ope)
  | opt (ope : Ope)
  | apd (ope : Ope)
  | npd (ope : Ope)
  | lit (lit : GStr)
  | cls (chars : GStr)
  | dot
  | tok (ope : Ope)
  | ign (ope : Ope)
  | wsp (ope : Ope)
  | usr (fn : GStr → Nat → Values → Values × Nat × Option Err)
  | refParam (iarg : Nat)

/-- Constructor `Wsp` of ope.go wraps its operand in `Ign`. -/
def Wsp (o : Ope) : Ope :=
  .wsp (.ign o)

/-- Operator labels as produced by `opeBase.Label` (the Go type name). -/
def label : Ope → GStr
  | .seq _ => bytes "sequence"
  | .cho _ => bytes "prioritizedChoice"
  | .zom _ => bytes "zeroOrMore"
  | .oom _ => bytes "oneOrMore"
  | .opt _ => bytes "option"
  | .apd _ => bytes "andPredicate"
  | .npd _ => bytes "notPredicate"
  | .lit _ => bytes "literalString"
  | .cls _ => bytes "characterClass"
  | .dot => bytes "anyCharacter"
  | .tok _ => bytes "tokenBoundary"
  | .ign _ => bytes "ignore"
  | .wsp _ => bytes "whitespace"
  | .usr _ => bytes "user"
  | .refParam _ => bytes "reference"

/-- Parse context (`context` in ope.go); the tracer hooks are omitted. -/
structure Ctx where
  s : GStr
  errorPos : Nat
  messagePos : Nat
  message : GStr
  svStack : List Values
  argsStack : List (List Ope)
  inToken : Bool
  whitespaceOpe : Option Ope
  inWhitespace : Bool
  wordOpe : Option Ope

/-- Method `context.setErrorPos`. -/
def Ctx.setErrorPos (c : Ctx) (p : Nat) : Ctx :=
  if c.errorPos < p then { c with errorPos := p } else c

/-- Fresh semantic-value frame `Values{SS: ss}` (Go zero values elsewhere). -/
def freshSV (ss : GStr) : Values :=
  { SS := ss, Vs := [], Pos := 0, S := [], Choice := 0, Ts := [] }

/-- Method `context.push`: append a fresh frame to the stack.  The Go method
returns a pointer to the slot; the embedding threads the frame value itself. -/
def Ctx.push (c : Ctx) : Ctx :=
  { c with svStack := c.svStack ++ [freshSV c.s] }

/-- Method `context.pop`: drop the top frame. -/
def Ctx.pop (c : Ctx) : Ctx :=
  { c with svStack := c.svStack.dropLast }

/-- Method `context.pushArgs`. -/
def Ctx.pushArgs (c : Ctx) (args : List Ope) : Ctx :=
  { c with argsStack := c.argsStack ++ [args] }

/-- Method `context.popArgs`. -/
def Ctx.popArgs (c : Ctx) : Ctx :=
  { c with argsStack := c.argsStack.dropLast }

/-- Method `context.topArg`: nil (none) when the stack is empty, else the last
pushed argument list. -/
def Ctx.topArg (c : Ctx) : Option (List Ope) :=
  c.argsStack.getLast?

/-- Fresh context `context{s: s}` (Go zero values elsewhere). -/
def freshCtx (s : GStr) : Ctx :=
  { s := s, errorPos := 0, messagePos := 0, message := [], svStack := [],
    argsStack := [], inToken := false, whitespaceOpe := none,
    inWhitespace := false, wordOpe := none }

/-- Modelled from the spec: the helper `lineInfo` is called by ope.go but
defined in a file that is not under src/; the spec says operator errors carry
the 1-based line and column of the failure position. -/
def lineInfo (s : GStr) (p : Nat) : Nat × Nat :=
  (((s.take p).count 10) + 1, ((s.take p).reverse.takeWhile (fun b => b != 10)).length + 1)

/-- Byte of `s` at position `p` (callers guard `p < s.length`). -/
def sAt (s : GStr) (p : Nat) : Nat :=
  s.getD p 0

/-- Outcome of the byte-comparison loop of `literalString.parseCore`: full
match, mismatch or end of input (`miss`), or an index past the end of the
input, on which the Go code would panic (`oob`). -/
inductive LitScan where
  | hit
  | miss
  | oob

/-- Byte-comparison loop of `literalString.parseCore`: walk the literal,
failing when the input ends or a byte differs. -/
def litScan (s : GStr) : Nat → GStr → LitScan
  | _, [] => .hit
  | q, b :: bs =>
    if q = s.length then .miss
    else if s.length < q then .oob
    else if sAt s q = b then litScan s (q + 1) bs else .miss

/-- Scanning loop of `characterClass.parseCore`: a hyphen with a character on
both sides (index check `i+2 < len(chars)` and `chars[i+1] == '-'`) forms an
inclusive range, otherwise bytes are matched singly. -/
def clsMatch : GStr → Nat → Bool
  | a :: h :: b :: rest, ch =>
    if h = 45 then
      if a ≤ ch ∧ ch ≤ b then true else clsMatch rest ch
    else
      if a = ch then true else clsMatch (h :: b :: rest) ch
  | a :: rest, ch => if a = ch then true else clsMatch rest ch
  | [], _ => false

/-- Item of a character class: a single character or an inclusive range. -/
inductive ClassItem where
  | single (b : Nat)
  | range (lo hi : Nat)

/-- Spec-side reading of a class string as described by the claim: a hyphen at
`chars[i+1]` with both neighbours in bounds denotes an `a-b` range, and a
stray hyphen is a literal character. -/
def classItems : GStr → List ClassItem
  | a :: h :: b :: rest =>
    if h = 45 then .range a b :: classItems rest
    else .single a :: classItems (h :: b :: rest)
  | a :: rest => .single a :: classItems rest
  | [] => []

/-- Whether a byte matches one class item. -/
def itemMatch (ch : Nat) : ClassItem → Bool
  | .single b => decide (ch = b)
  | .range lo hi => decide (lo ≤ ch) && decide (ch ≤ hi)

/-- Result of one `parseCore` call: consumed length, error, final frame and
final context (the Go code mutates the frame and context in place). -/
structure PR where
  l : Nat
  err : Option Err
  v : Values
  c : Ctx

/-- Outcome of an evaluation: normal return, Go runtime panic (`crash`), or
fuel exhaustion (`fuelOut`). -/
inductive Out where
  | ok (r : PR)
  | crash
  | fuelOut

/-- Loop body of `sequence.parseCore`. -/
def seqLoop (pf : Ope → GStr → Nat → Values → Ctx → Out) (s : GStr) (p : Nat) :
    List Ope → Nat → Values → Ctx → Out
  | [], l, v, c => .ok ⟨l, none, v, c⟩
  | o :: rest, l, v, c =>
    match pf o s (p + l) v c with
    | .ok r =>
      if r.err.isSome then .ok ⟨0, r.err, r.v, r.c⟩
      else seqLoop pf s p rest (l + r.l) r.v r.c
    | ab => ab

/-- Loop body of `prioritizedChoice.parseCore`: each alternative runs on a
freshly pushed frame that is popped afterwards; the first success splices the
child frame onto the parent and records the ordinal; errors accumulate. -/
def choLoop (pf : Ope → GStr → Nat → Values → Ctx → Out) (s : GStr) (p : Nat) :
    List Ope → Nat → List Err → Values → Ctx → Out
  | [], _, errs, v, c => .ok ⟨0, some (.seqErr errs), v, c⟩
  | o :: rest, idx, errs, v, c =>
    match pf o s p (freshSV c.s) c.push with
    | .ok r =>
      match r.err with
      | none =>
        .ok ⟨r.l, none,
          { v with Vs := v.Vs ++ r.v.Vs, Pos := r.v.Pos, S := r.v.S, Choice := idx, Ts := v.Ts ++ r.v.Ts },
          r.c.pop⟩
      | some e => choLoop pf s p rest (idx + 1) (errs ++ [e]) v r.c.pop
    | ab => ab

/-- Loop body shared by `zeroOrMore.parseCore` and `oneOrMore.parseCore`:
snapshot `(v.Vs, v.Ts)` before each iteration and restore it, together with
the error position saved in `sep` before the whole loop, when an iteration
fails.  The Go loop is unbounded; `lfuel` only bounds the embedding. -/
def repLoop (pf : Ope → GStr → Nat → Values → Ctx → Out) (o : Ope) (s : GStr)
    (p sep : Nat) : Nat → Nat → Values → Ctx → Out
  | 0, _, _, _ => .fuelOut
  | lfuel + 1, l, v, c =>
    if p + l < s.length then
      match pf o s (p + l) v c with
      | .ok r =>
        if r.err.isSome then
          .ok ⟨l, none, { r.v with Vs := v.Vs, Ts := v.Ts }, { r.c with errorPos := sep }⟩
        else repLoop pf o s p sep lfuel (l + r.l) r.v r.c
      | ab => ab
    else .ok ⟨l, none, v, c⟩

/-- Trailing part of `literalString.parseCore`: skip whitespace in the outer
context unless inside a token, then return the accumulated length. -/
def litTail (pf : Ope → GStr → Nat → Values → Ctx → Out) (s : GStr) (p l : Nat)
    (v : Values) (c : Ctx) : Out :=
  if c.inToken = false then
    match c.whitespaceOpe with
    | some wo =>
      match pf wo s (p + l) v c with
      | .ok rw =>
        if rw.err.isSome then .ok ⟨0, rw.err, rw.v, rw.c⟩
        else .ok ⟨l + rw.l, none, rw.v, rw.c⟩
      | ab => ab
    | none => .ok ⟨l, none, v, c⟩
  else .ok ⟨l, none, v, c⟩

/-- Transcription of the `parseCore` methods of ope.go, one arm per operator.
`pf` performs child parses (it is `parse fuel`), and `lfuel` bounds the
repetition loops of the embedding.  In `lit`, the memoized word classification
is computed by probing `wordOpe` on the literal in a fresh context, exactly as
the at-most-once initializer does, and the word-boundary `NotPredicate` also
runs in a freshly constructed context, while the whitespace skip runs in the
outer context. -/
def parseCore (pf : Ope → GStr → Nat → Values → Ctx → Out) (lfuel : Nat) (o : Ope)
    (s : GStr) (p : Nat) (v : Values) (c : Ctx) : Out :=
  match o with
  | .seq opes => seqLoop pf s p opes 0 v c
  | .cho opes => choLoop pf s p opes 0 [] v c
  | .zom o1 => repLoop pf o1 s p c.errorPos lfuel 0 v c
  | .oom o1 =>
    match pf o1 s p v c with
    | .ok r =>
      if r.err.isSome then .ok r
      else repLoop pf o1 s p r.c.errorPos lfuel r.l r.v r.c
    | ab => ab
  | .opt o1 =>
    match pf o1 s p v c with
    | .ok r =>
      if r.err.isSome then
        .ok ⟨0, none, { r.v with Vs := v.Vs, Ts := v.Ts }, { r.c with errorPos := c.errorPos }⟩
      else .ok ⟨r.l, none, r.v, r.c⟩
    | ab => ab
  | .apd o1 =>
    match pf o1 s p (freshSV c.s) c.push with
    | .ok r => .ok ⟨0, r.err, v, r.c.pop⟩
    | ab => ab
  | .npd o1 =>
    match pf o1 s p (freshSV c.s) c.push with
    | .ok r =>
      match r.err with
      | none =>
        .ok ⟨0, some (.opErr [bytes "Not " ++ label o1] s (lineInfo s p).1 (lineInfo s p).2 r.l),
          v, (r.c.pop).setErrorPos p⟩
      | some _ => .ok ⟨0, none, v, { r.c.pop with errorPos := c.errorPos }⟩
    | ab => ab
  | .lit li =>
    match litScan s p li with
    | .oob => .crash
    | .miss =>
      .ok ⟨0, some (.opErr [li] s (lineInfo s p).1 (lineInfo s p).2 li.length), v,
        c.setErrorPos p⟩
    | .hit =>
      match c.wordOpe with
      | none => litTail pf s p li.length v c
      | some w =>
        match pf w li 0 (freshSV []) (freshCtx s) with
        | .ok rp =>
          if rp.err.isSome then litTail pf s p li.length v c
          else
            match pf (.npd w) s (p + li.length) v (freshCtx s) with
            | .ok rb =>
              if rb.err.isSome then .ok ⟨0, rb.err, rb.v, c⟩
              else litTail pf s p (li.length + rb.l) rb.v c
            | ab => ab
        | ab => ab
  | .cls chars =>
    if s.length - p < 1 then
      .ok ⟨0, some (.opErr [chars] s (lineInfo s p).1 (lineInfo s p).2 0), v, c.setErrorPos p⟩
    else if clsMatch chars (sAt s p) then .ok ⟨1, none, v, c⟩
    else
      .ok ⟨0, some (.opErr [chars] s (lineInfo s p).1 (lineInfo s p).2 1), v, c.setErrorPos p⟩
  | .dot =>
    if s.length - p < 1 then
      .ok ⟨0, some (.opErr [bytes "Anything"] s (lineInfo s p).1 (lineInfo s p).2 0), v,
        c.setErrorPos p⟩
    else .ok ⟨1, none, v, c⟩
  | .tok o1 =>
    match pf o1 s p v { c with inToken := true } with
    | .ok r =>
      let c2 : Ctx := { r.c with inToken := false }
      if r.err.isSome then .ok ⟨r.l, r.err, r.v, c2⟩
      else if s.length < p + r.l then .crash
      else
        let v2 : Values := { r.v with Ts := r.v.Ts ++ [⟨p, (s.drop p).take r.l⟩] }
        match c2.whitespaceOpe with
        | some wo =>
          match pf wo s (p + r.l) v2 c2 with
          | .ok rw =>
            if rw.err.isSome then .ok ⟨0, rw.err, rw.v, rw.c⟩
            else .ok ⟨r.l + rw.l, none, rw.v, rw.c⟩
          | ab => ab
        | none => .ok ⟨r.l, none, v2, c2⟩
    | ab => ab
  | .ign o1 =>
    match pf o1 s p (freshSV c.s) c.push with
    | .ok r => .ok ⟨r.l, r.err, v, r.c.pop⟩
    | ab => ab
  | .wsp o1 =>
    if c.inWhitespace then .ok ⟨0, none, v, c⟩
    else
      match pf o1 s p v { c with inWhitespace := true } with
      | .ok r => .ok ⟨r.l, r.err, r.v, { r.c with inWhitespace := false }⟩
      | ab => ab
  | .usr fn =>
    match fn s p v with
    | (v2, l, e) => .ok ⟨l, e, v2, c⟩
  | .refParam iarg =>
    match (c.topArg.getD []).get? iarg with
    | some a => pf a s p v c
    | none => .crash

/-- Fuel-indexed evaluation: `parse (fuel+1)` runs `parseCore` with child
parses at fuel `fuel`.  `parse` plays the role of the Go `parse` dispatch
function (whose tracer hooks are not modelled, so it adds nothing else). -/
def parse : Nat → Ope → GStr → Nat → Values → Ctx → Out
  | 0, _, _, _, _, _ => .fuelOut
  | fuel + 1, o, s, p, v, c =>
    parseCore (fun o' s' p' v' c' => parse fuel o' s' p' v' c') fuel o s p v c

/-- One failing prioritized-choice alternative after another: relates the
alternatives still to try and the context before them to the collected child
errors and the context after all of them failed; each alternative runs on a
freshly pushed frame that is popped afterwards. -/
inductive ChoFails (pf : Ope → GStr → Nat → Values → Ctx → Out) (s : GStr) (p : Nat) :
    List Ope → Ctx → List Err → Ctx → Prop where
  | nil (c : Ctx) : ChoFails pf s p [] c [] c
  | cons {o : Ope} {rest : List Ope} {c : Ctx} {r : PR} {e : Err} {errs : List Err} {c' : Ctx} :
      pf o s p (freshSV c.s) c.push = .ok r → r.err = some e →
      ChoFails pf s p rest r.c.pop errs c' →
      ChoFails pf s p (o :: rest) c (e :: errs) c'

/-- One successful sequence child after another: relates the children still to
run and the accumulated length, frame and context before them to the state
after all of them succeeded (each child runs at the current offset against the
current frame). -/
inductive SeqSteps (pf : Ope → GStr → Nat → Values → Ctx → Out) (s : GStr) (p : Nat) :
    List Ope → Nat → Values → Ctx → Nat → Values → Ctx → Prop where
  | nil (l : Nat) (v : Values) (c : Ctx) : SeqSteps pf s p [] l v c l v c
  | cons {o : Ope} {rest : List Ope} {l : Nat} {v : Values} {c : Ctx} {r : PR}
      {l' : Nat} {v' : Values} {c' : Ctx} :
      pf o s (p + l) v c = .ok r → r.err = none →
      SeqSteps pf s p rest (l + r.l) r.v r.c l' v' c' →
      SeqSteps pf s p (o :: rest) l v c l' v' c'

/-- Zero or more successful repetition steps of a child operator, threading
the accumulated length, the frame and the context. -/
inductive RepSteps (pf : Ope → GStr → Nat → Values → Ctx → Out) (o : Ope) (s : GStr) (p : Nat) :
    Nat → Values → Ctx → Nat → Values → Ctx → Prop where
  | refl (l : Nat) (v : Values) (c : Ctx) : RepSteps pf o s p l v c l v c
  | step {l : Nat} {v : Values} {c : Ctx} {r : PR} {l' : Nat} {v' : Values} {c' : Ctx} :
      p + l < s.length → pf o s (p + l) v c = .ok r → r.err = none →
      RepSteps pf o s p (l + r.l) r.v r.c l' v' c' →
      RepSteps pf o s p l v c l' v' c'

/-- The class of the claim's example, `Cls("a-zA-Z0-9_")`. -/
def clsExample : Ope :=
  .cls (bytes "a-zA-Z0-9_")

/-- A child-parse function that never changes the SV stack depth of the
context on any normal return. -/
def PreservesDepth (pf : Ope → GStr → Nat → Values → Ctx → Out) : Prop :=
  ∀ o s p v c r, pf o s p v c = .ok r → r.c.svStack.length = c.svStack.length

theorem parse_succ (fuel : Nat) (o : Ope) (s : GStr) (p : Nat) (v : Values) (c : Ctx) :
    parse (fuel + 1) o s p v c = parseCore (parse fuel) fuel o s p v c := rfl

/-- C10: `Values.Token` returns the text of the first captured token when the
token list `Ts` is non-empty, and otherwise falls back to the frame's whole
matched substring `S`. -/
theorem values_token_fallback (v : Values) :
    (∀ t ts, v.Ts = t :: ts → v.Token = t.S) ∧ (v.Ts = [] → v.Token = v.S) := by
  constructor
  · intro t ts h
    simp [Values.Token, h]
  · intro h
    simp [Values.Token, h]

theorem values_token_fallback_inst :
    (Values.mk [] [] 0 [98] 0 [⟨0, [97]⟩]).Token = [97] :=
  (values_token_fallback _).1 ⟨0, [97]⟩ [] rfl

/-- C8: a parameter reference (`rule == nil`) indexes `topArg()[iarg]` with no
nil or bounds check; `topArg` is none (nil) on an empty argsStack, evaluation
crashes (a Go index-out-of-range panic) whenever the top argument list — the
empty list for a missing one — is not longer than `iarg`, and under the
precondition it evaluates the selected argument operator in place. -/
theorem refParam_bounds (fuel iarg : Nat) (s : GStr) (p : Nat) (v : Values) (c : Ctx) :
    (c.argsStack = [] → c.topArg = none)
    ∧ ((c.topArg.getD []).length ≤ iarg →
        parse (fuel + 1) (.refParam iarg) s p v c = .crash)
    ∧ (∀ a, (c.topArg.getD []).get? iarg = some a →
        parse (fuel + 1) (.refParam iarg) s p v c = parse fuel a s p v c) := by
  refine ⟨?_, ?_, ?_⟩
  · intro h
    simp [Ctx.topArg, h]
  · intro h
    rw [parse_succ]
    simp only [parseCore]
    rw [List.get?_eq_none.mpr h]
  · intro a h
    rw [parse_succ]
    simp only [parseCore]
    rw [h]

theorem refParam_bounds_inst :
    parse 3 (.refParam 0) [] 0 (freshSV []) (freshCtx []) = .crash :=
  (refParam_bounds 2 0 [] 0 (freshSV []) (freshCtx [])).2.1 (by decide)

/-- C2 counterexample: in `Seq(Tok(Lit "a"), Lit "b")` on input "ac" the first
child succeeds and appends a token to the frame, the second child fails; the
sequence returns `(0, err)` but the token is still in the parent frame, so the
frame is not "exactly as it was before the sequence started". -/
theorem seq_frame_not_restored_cex :
    (parse 9 (.seq [.tok (.lit [97]), .lit [98]]) [97, 99] 0
        (freshSV [97, 99]) (freshCtx [97, 99])
      = .ok ⟨0, some (.opErr [[98]] [97, 99] 1 2 1),
          { freshSV [97, 99] with Ts := [⟨0, [97]⟩] },
          { freshCtx [97, 99] with errorPos := 1 }⟩)
    ∧ ({ freshSV [97, 99] with Ts := [⟨0, [97]⟩] } : Values).Ts ≠ (freshSV [97, 99]).Ts :=
  ⟨rfl, by simp [freshSV]⟩

theorem seqLoop_all_ok (pf : Ope → GStr → Nat → Values → Ctx → Out) (s : GStr) (p : Nat) :
    ∀ {opes : List Ope} {l : Nat} {v : Values} {c : Ctx} {l' : Nat} {v' : Values} {c' : Ctx},
      SeqSteps pf s p opes l v c l' v' c' →
      seqLoop pf s p opes l v c = .ok ⟨l', none, v', c'⟩ := by
  intro opes l v c l' v' c' h
  induction h with
  | nil l v c =>
    simp [seqLoop]
  | cons h1 h2 _ ih =>
    simp only [seqLoop, h1, h2, Option.isSome_none, Bool.false_eq_true, if_false]
    exact ih

theorem seqLoop_first_fail (pf : Ope → GStr → Nat → Values → Ctx → Out) (s : GStr) (p : Nat) :
    ∀ {pre : List Ope} {l : Nat} {v : Values} {c : Ctx} {l' : Nat} {v' : Values} {c' : Ctx},
      SeqSteps pf s p pre l v c l' v' c' →
      ∀ (bad : Ope) (rest : List Ope) (rb : PR) (e : Err),
        pf bad s (p + l') v' c' = .ok rb → rb.err = some e →
        seqLoop pf s p (pre ++ bad :: rest) l v c = .ok ⟨0, some e, rb.v, rb.c⟩ := by
  intro pre l v c l' v' c' h
  induction h with
  | nil l v c =>
    intro bad rest rb e hb he
    simp only [List.nil_append, seqLoop, hb, he, Option.isSome_some, if_true]
  | cons h1 h2 _ ih =>
    intro bad rest rb e hb he
    simp only [List.cons_append, seqLoop, h1, h2, Option.isSome_none, Bool.false_eq_true,
      if_false, List.append_eq]
    exact ih bad rest rb e hb he

/-- C2 (amended): for every sequence operator, the children run left-to-right
against the current frame with the length accumulating; on the first child
error the sequence returns `(0, err)` with the frame exactly as the failing
run left it — contributions appended by earlier successful children remain,
and discarding them on a failed speculative path is the enclosing operators'
job. -/
theorem seq_semantics (fuel : Nat) (opes : List Ope) (s : GStr) (p : Nat)
    (v : Values) (c : Ctx) :
    (∀ l' v' c', SeqSteps (parse fuel) s p opes 0 v c l' v' c' →
       parse (fuel + 1) (.seq opes) s p v c = .ok ⟨l', none, v', c'⟩)
    ∧ (∀ pre bad rest l' v' c' rb e, opes = pre ++ bad :: rest →
        SeqSteps (parse fuel) s p pre 0 v c l' v' c' →
        parse fuel bad s (p + l') v' c' = .ok rb → rb.err = some e →
        parse (fuel + 1) (.seq opes) s p v c = .ok ⟨0, some e, rb.v, rb.c⟩) := by
  constructor
  · intro l' v' c' h
    rw [parse_succ]
    simp only [parseCore]
    exact seqLoop_all_ok (parse fuel) s p h
  · intro pre bad rest l' v' c' rb e hsplit h hb he
    rw [parse_succ]
    simp only [parseCore, hsplit]
    exact seqLoop_first_fail (parse fuel) s p h bad rest rb e hb he

theorem seq_semantics_inst :
    parse 9 (.seq [.tok (.lit [97]), .lit [98], .lit [122]]) [97, 98, 99] 0
        (freshSV [97, 98, 99]) (freshCtx [97, 98, 99])
      = .ok ⟨0, some (.opErr [[122]] [97, 98, 99] 1 3 1),
          { freshSV [97, 98, 99] with Ts := [⟨0, [97]⟩] },
          { freshCtx [97, 98, 99] with errorPos := 2 }⟩ :=
  (seq_semantics 8 [.tok (.lit [97]), .lit [98], .lit [122]] [97, 98, 99] 0
      (freshSV [97, 98, 99]) (freshCtx [97, 98, 99])).2
    [.tok (.lit [97]), .lit [98]] (.lit [122]) [] 2
    { freshSV [97, 98, 99] with Ts := [⟨0, [97]⟩] } (freshCtx [97, 98, 99])
    ⟨0, some (.opErr [[122]] [97, 98, 99] 1 3 1),
      { freshSV [97, 98, 99] with Ts := [⟨0, [97]⟩] },
      ((freshCtx [97, 98, 99]).setErrorPos 2)⟩
    (.opErr [[122]] [97, 98, 99] 1 3 1) rfl
    (SeqSteps.cons (r := ⟨1, none, { freshSV [97, 98, 99] with Ts := [⟨0, [97]⟩] },
        freshCtx [97, 98, 99]⟩) rfl rfl
      (SeqSteps.cons (r := ⟨1, none, { freshSV [97, 98, 99] with Ts := [⟨0, [97]⟩] },
          freshCtx [97, 98, 99]⟩) rfl rfl
        (SeqSteps.nil 2 { freshSV [97, 98, 99] with Ts := [⟨0, [97]⟩] }
          (freshCtx [97, 98, 99]))))
    rfl rfl

/-- C4 counterexample: the token boundary does not restore the entry value of
`inToken`; entering `parseCore` with `inToken = true` and succeeding leaves
`inToken = false`, different from the value at entry. -/
theorem tok_inToken_not_restored_cex :
    (parse 3 (.tok (.lit [97])) [97] 0 (freshSV [97]) { freshCtx [97] with inToken := true }
      = .ok ⟨1, none, { freshSV [97] with Ts := [⟨0, [97]⟩] }, freshCtx [97]⟩)
    ∧ ({ freshCtx [97] with inToken := true } : Ctx).inToken ≠ (freshCtx [97]).inToken :=
  ⟨rfl, by simp [freshCtx]⟩

/-- C4 (amended): on exit from `tokenBoundary.parseCore`, `inToken` is set to
`false` on both the success and the failure path (it is not restored to the
entry value, so a boundary nested in another leaves the outer scope no longer
in-token); on success a `Token{Pos=p, S=s[p:p+l]}` with `l` the child's
consumed length is appended to the current frame's `Ts` before the trailing
whitespace skip, whose length is then added to the returned length. -/
theorem tok_semantics (fuel : Nat) (o : Ope) (s : GStr) (p : Nat) (v : Values) (c : Ctx)
    (r1 : PR) (h1 : parse fuel o s p v { c with inToken := true } = .ok r1) :
    (∀ e, r1.err = some e →
       parse (fuel + 1) (.tok o) s p v c
         = .ok ⟨r1.l, some e, r1.v, { r1.c with inToken := false }⟩)
    ∧ (r1.err = none → p + r1.l ≤ s.length →
       (r1.c.whitespaceOpe = none →
          parse (fuel + 1) (.tok o) s p v c
            = .ok ⟨r1.l, none, { r1.v with Ts := r1.v.Ts ++ [⟨p, (s.drop p).take r1.l⟩] },
                { r1.c with inToken := false }⟩)
       ∧ (∀ wo rw, r1.c.whitespaceOpe = some wo →
            parse fuel wo s (p + r1.l)
                { r1.v with Ts := r1.v.Ts ++ [⟨p, (s.drop p).take r1.l⟩] }
                { r1.c with inToken := false } = .ok rw →
            ((rw.err = none →
               parse (fuel + 1) (.tok o) s p v c = .ok ⟨r1.l + rw.l, none, rw.v, rw.c⟩)
             ∧ (∀ e, rw.err = some e →
               parse (fuel + 1) (.tok o) s p v c = .ok ⟨0, some e, rw.v, rw.c⟩)))) := by
  constructor
  · intro e he
    rw [parse_succ]
    simp only [parseCore, h1, he, Option.isSome_some, if_true]
  · intro he1 hle
    have hnotlt : ¬ s.length < p + r1.l := by omega
    constructor
    · intro hws
      rw [parse_succ]
      simp only [parseCore, h1, he1, Option.isSome_none, Bool.false_eq_true, if_false,
        hnotlt, hws]
    · intro wo rw' hws h2
      simp only [hws] at h2
      constructor
      · intro he2
        rw [parse_succ]
        simp only [parseCore, h1, he1, Option.isSome_none, Bool.false_eq_true, if_false,
          hnotlt, hws, h2, he2]
      · intro e he2
        rw [parse_succ]
        simp only [parseCore, h1, he1, Option.isSome_none, Bool.false_eq_true, if_false,
          hnotlt, hws, h2, he2, Option.isSome_some, if_true]

theorem clsMatch_eq_items_aux : ∀ (n : Nat) (chars : GStr), chars.length ≤ n → ∀ ch,
    clsMatch chars ch = (classItems chars).any (itemMatch ch) := by
  intro n
  induction n with
  | zero =>
    intro chars hle ch
    rcases chars with _ | ⟨a, t⟩
    · simp [clsMatch, classItems]
    · simp at hle
  | succ n ih =>
    intro chars hle ch
    rcases chars with _ | ⟨a, _ | ⟨h, _ | ⟨b, rest⟩⟩⟩
    · simp [clsMatch, classItems]
    · by_cases hc : a = ch
      · simp [clsMatch, classItems, itemMatch, hc]
      · simp [clsMatch, classItems, itemMatch, hc, Ne.symm hc]
    · by_cases hc : a = ch
      · simp [clsMatch, classItems, itemMatch, hc]
      · by_cases hc2 : h = ch
        · simp [clsMatch, classItems, itemMatch, hc, Ne.symm hc, hc2]
        · simp [clsMatch, classItems, itemMatch, hc, Ne.symm hc, hc2, Ne.symm hc2]
    · by_cases hh : h = 45
      · have hlen : rest.length ≤ n := by simp at hle; omega
        by_cases h1 : a ≤ ch
        · by_cases h2 : ch ≤ b
          · simp [clsMatch, classItems, itemMatch, hh, h1, h2]
          · simp [clsMatch, classItems, itemMatch, hh, h1, h2, ih rest hlen ch]
        · simp [clsMatch, classItems, itemMatch, hh, h1, ih rest hlen ch]
      · by_cases hc : a = ch
        · simp [clsMatch, classItems, itemMatch, hh, hc]
        · have hlen : (h :: b :: rest).length ≤ n := by simp at hle ⊢; omega
          simp [clsMatch, classItems, itemMatch, hh, hc, Ne.symm hc,
            ih (h :: b :: rest) hlen ch]

theorem clsMatch_eq_items (chars : GStr) (ch : Nat) :
    clsMatch chars ch = (classItems chars).any (itemMatch ch) :=
  clsMatch_eq_items_aux chars.length chars le_rfl ch

/-- C5: the character class consumes one byte: at end of input it fails with
`OperatorError{Expected=[chars], Length=0}`; otherwise it succeeds with length
exactly 1 if and only if the input byte matches one of the class items (a
single character, or an inclusive `a-b` range given by a hyphen with both
neighbours in bounds — a stray hyphen is a literal), and on mismatch it fails
with `OperatorError{Expected=[chars], Length=1}`; in particular
`Cls("a-zA-Z0-9_")` matches "a", "9" and "_" with length 1 and fails on "-"
and on empty input. -/
theorem cls_semantics (fuel : Nat) (chars s : GStr) (p : Nat) (v : Values) (c : Ctx) :
    (s.length ≤ p →
       parse (fuel + 1) (.cls chars) s p v c
         = .ok ⟨0, some (.opErr [chars] s (lineInfo s p).1 (lineInfo s p).2 0), v,
             c.setErrorPos p⟩)
    ∧ (p < s.length →
       (((classItems chars).any (itemMatch (sAt s p)) = true →
           parse (fuel + 1) (.cls chars) s p v c = .ok ⟨1, none, v, c⟩)
        ∧ ((classItems chars).any (itemMatch (sAt s p)) = false →
           parse (fuel + 1) (.cls chars) s p v c
             = .ok ⟨0, some (.opErr [chars] s (lineInfo s p).1 (lineInfo s p).2 1), v,
                 c.setErrorPos p⟩)))
    ∧ (parse 1 clsExample (bytes "a") 0 (freshSV []) (freshCtx (bytes "a"))
         = .ok ⟨1, none, freshSV [], freshCtx (bytes "a")⟩
       ∧ parse 1 clsExample (bytes "9") 0 (freshSV []) (freshCtx (bytes "9"))
         = .ok ⟨1, none, freshSV [], freshCtx (bytes "9")⟩
       ∧ parse 1 clsExample (bytes "_") 0 (freshSV []) (freshCtx (bytes "_"))
         = .ok ⟨1, none, freshSV [], freshCtx (bytes "_")⟩
       ∧ parse 1 clsExample (bytes "-") 0 (freshSV []) (freshCtx (bytes "-"))
         = .ok ⟨0, some (.opErr [bytes "a-zA-Z0-9_"] (bytes "-") 1 1 1), freshSV [],
             freshCtx (bytes "-")⟩
       ∧ parse 1 clsExample [] 0 (freshSV []) (freshCtx [])
         = .ok ⟨0, some (.opErr [bytes "a-zA-Z0-9_"] [] 1 1 0), freshSV [], freshCtx []⟩) := by
  refine ⟨?_, ?_, rfl, rfl, rfl, rfl, rfl⟩
  · intro hp
    have hcond : s.length - p < 1 := by omega
    rw [parse_succ]
    simp only [parseCore, if_pos hcond]
  · intro hp
    have hcond : ¬ s.length - p < 1 := by omega
    constructor
    · intro hm
      have hb : clsMatch chars (sAt s p) = true := by rw [clsMatch_eq_items]; exact hm
      rw [parse_succ]
      simp only [parseCore, if_neg hcond, hb, if_true]
    · intro hm
      have hb : ¬ clsMatch chars (sAt s p) = true := by
        rw [clsMatch_eq_items, hm]
        exact Bool.false_ne_true
      rw [parse_succ]
      simp only [parseCore, if_neg hcond, if_neg hb]

theorem cls_semantics_inst :
    parse 7 clsExample (bytes "z") 0 (freshSV []) (freshCtx (bytes "z"))
      = .ok ⟨1, none, freshSV [], freshCtx (bytes "z")⟩ :=
  ((cls_semantics 6 (bytes "a-zA-Z0-9_") (bytes "z") 0 (freshSV [])
      (freshCtx (bytes "z"))).2.1 (by decide)).1 (by decide)

/-- C6: for a word-classified literal (the probe of `wordOpe` on the literal
succeeds), the word-boundary check — a NotPredicate over `wordOpe` at the
post-match position — runs in a freshly constructed context, so the outer
context `c`, and with it `c.errorPos`, comes back untouched whether the
boundary check passes or fails; a boundary failure makes the whole literal
fail with length 0, while the subsequent whitespace skip (performed only when
`inToken` is false and `whitespaceOpe` is set) runs in the outer context `c`,
whose final state is the one the whitespace operator leaves. -/
theorem lit_word_boundary_ctx (fuel : Nat) (li s : GStr) (p : Nat) (v : Values) (c : Ctx)
    (w : Ope) (rp rb : PR)
    (hscan : litScan s p li = .hit)
    (hw : c.wordOpe = some w)
    (hprobe : parse fuel w li 0 (freshSV []) (freshCtx s) = .ok rp)
    (hpw : rp.err.isSome = false)
    (hb : parse fuel (.npd w) s (p + li.length) v (freshCtx s) = .ok rb) :
    (∀ e, rb.err = some e →
       parse (fuel + 1) (.lit li) s p v c = .ok ⟨0, some e, rb.v, c⟩)
    ∧ (rb.err = none →
       (c.inToken = true →
          parse (fuel + 1) (.lit li) s p v c = .ok ⟨li.length + rb.l, none, rb.v, c⟩)
       ∧ (c.inToken = false → c.whitespaceOpe = none →
          parse (fuel + 1) (.lit li) s p v c = .ok ⟨li.length + rb.l, none, rb.v, c⟩)
       ∧ (∀ wo rw, c.inToken = false → c.whitespaceOpe = some wo →
            parse fuel wo s (p + (li.length + rb.l)) rb.v c = .ok rw →
            ((rw.err = none →
               parse (fuel + 1) (.lit li) s p v c
                 = .ok ⟨li.length + rb.l + rw.l, none, rw.v, rw.c⟩)
             ∧ (∀ e, rw.err = some e →
               parse (fuel + 1) (.lit li) s p v c = .ok ⟨0, some e, rw.v, rw.c⟩)))) := by
  constructor
  · intro e he
    rw [parse_succ]
    simp only [parseCore, hscan, hw, hprobe, hpw, Bool.false_eq_true, if_false, hb, he,
      Option.isSome_some, if_true]
  · intro he
    refine ⟨?_, ?_, ?_⟩
    · intro htok
      rw [parse_succ]
      simp only [parseCore, hscan, hw, hprobe, hpw, Bool.false_eq_true, if_false, hb, he,
        Option.isSome_none, litTail, htok, Bool.true_eq_false]
    · intro htok hws
      rw [parse_succ]
      simp only [parseCore, hscan, hw, hprobe, hpw, Bool.false_eq_true, if_false, hb, he,
        Option.isSome_none, litTail, htok, hws, if_true]
    · intro wo rw' htok hws h2
      constructor
      · intro he2
        rw [parse_succ]
        simp only [parseCore, hscan, hw, hprobe, hpw, Bool.false_eq_true, if_false, hb, he,
          Option.isSome_none, litTail, htok, hws, if_true, h2, he2]
      · intro e he2
        rw [parse_succ]
        simp only [parseCore, hscan, hw, hprobe, hpw, Bool.false_eq_true, if_false, hb, he,
          Option.isSome_none, litTail, htok, hws, if_true, h2, he2, Option.isSome_some]

theorem lit_word_boundary_ctx_inst :
    parse 4 (.lit [97, 98]) [97, 98] 0 (freshSV [97, 98])
        { freshCtx [97, 98] with wordOpe := some (.cls [97, 45, 122]) }
      = .ok ⟨2 + 0, none, freshSV [97, 98],
          { freshCtx [97, 98] with wordOpe := some (.cls [97, 45, 122]) }⟩ :=
  (((lit_word_boundary_ctx 3 [97, 98] [97, 98] 0 (freshSV [97, 98])
      { freshCtx [97, 98] with wordOpe := some (.cls [97, 45, 122]) }
      (.cls [97, 45, 122])
      ⟨1, none, freshSV [], freshCtx [97, 98]⟩
      ⟨0, none, freshSV [97, 98], freshCtx [97, 98]⟩
      rfl rfl rfl rfl rfl).2 rfl).2.1) rfl rfl

theorem choLoop_all_fail (pf : Ope → GStr → Nat → Values → Ctx → Out) (s : GStr) (p : Nat) :
    ∀ {opes : List Ope} {c : Ctx} {errs : List Err} {c' : Ctx},
      ChoFails pf s p opes c errs c' →
      ∀ (idx : Nat) (acc : List Err) (v : Values),
        choLoop pf s p opes idx acc v c = .ok ⟨0, some (.seqErr (acc ++ errs)), v, c'⟩ := by
  intro opes c errs c' h
  induction h with
  | nil c =>
    intro idx acc v
    simp [choLoop]
  | cons h1 h2 _ ih =>
    intro idx acc v
    simp only [choLoop, h1, h2]
    rw [ih]
    simp

theorem choLoop_first_success (pf : Ope → GStr → Nat → Values → Ctx → Out) (s : GStr) (p : Nat) :
    ∀ {pre : List Ope} {c : Ctx} {errs : List Err} {c1 : Ctx},
      ChoFails pf s p pre c errs c1 →
      ∀ (okOpe : Ope) (rest : List Ope) (r : PR),
        pf okOpe s p (freshSV c1.s) c1.push = .ok r → r.err = none →
        ∀ (idx : Nat) (acc : List Err) (v : Values),
          choLoop pf s p (pre ++ okOpe :: rest) idx acc v c
            = .ok ⟨r.l, none,
                { v with Vs := v.Vs ++ r.v.Vs, Pos := r.v.Pos, S := r.v.S, Choice := idx + pre.length, Ts := v.Ts ++ r.v.Ts },
                r.c.pop⟩ := by
  intro pre c errs c1 h
  induction h with
  | nil c =>
    intro okOpe rest r hr hre idx acc v
    simp only [List.nil_append, choLoop, hr, hre, List.length_nil, Nat.add_zero]
  | cons h1 h2 _ ih =>
    intro okOpe rest r hr hre idx acc v
    simp only [List.cons_append, choLoop, h1, h2, List.append_eq]
    rw [ih okOpe rest r hr hre (idx + 1) _ v]
    simp only [List.length_cons]
    simp [Nat.add_assoc, Nat.add_comm, Nat.add_left_comm]

/-- C1: prioritized choice tries the alternatives left-to-right, each in a
freshly pushed SV frame that is popped afterwards; on the first alternative
that succeeds, the child frame's Vs and Ts are appended to the parent frame,
Pos and S are copied from the child frame, Choice is set to the zero-based
ordinal of that alternative, and the child's consumed length is returned
without trying the remaining alternatives; if every alternative fails the
result is length 0 with a SequenceError listing each alternative's error in
order, and the parent frame comes back unchanged. -/
theorem choice_semantics (fuel : Nat) (opes : List Ope) (s : GStr) (p : Nat)
    (v : Values) (c : Ctx) :
    (∀ errs c', ChoFails (parse fuel) s p opes c errs c' →
       parse (fuel + 1) (.cho opes) s p v c = .ok ⟨0, some (.seqErr errs), v, c'⟩)
    ∧ (∀ pre okOpe rest errs c1 r, opes = pre ++ okOpe :: rest →
        ChoFails (parse fuel) s p pre c errs c1 →
        parse fuel okOpe s p (freshSV c1.s) c1.push = .ok r → r.err = none →
        parse (fuel + 1) (.cho opes) s p v c
          = .ok ⟨r.l, none,
              { v with Vs := v.Vs ++ r.v.Vs, Pos := r.v.Pos, S := r.v.S, Choice := pre.length, Ts := v.Ts ++ r.v.Ts },
              r.c.pop⟩) := by
  constructor
  · intro errs c' h
    rw [parse_succ]
    simp only [parseCore]
    rw [choLoop_all_fail (parse fuel) s p h 0 [] v]
    simp
  · intro pre okOpe rest errs c1 r hsplit h hr hre
    rw [parse_succ]
    simp only [parseCore, hsplit]
    rw [choLoop_first_success (parse fuel) s p h okOpe rest r hr hre 0 [] v]
    simp

theorem choice_semantics_inst :
    parse 4 (.cho [.lit [98], .lit [97]]) [97] 0 (freshSV [97]) (freshCtx [97])
      = .ok ⟨1, none, { freshSV [97] with Choice := 1 }, freshCtx [97]⟩ := by
  have h := (choice_semantics 3 [.lit [98], .lit [97]] [97] 0 (freshSV [97])
      (freshCtx [97])).2 [.lit [98]] (.lit [97]) [] [.opErr [[98]] [97] 1 1 1]
      (freshCtx [97]) ⟨1, none, freshSV [97], (freshCtx [97]).push⟩ rfl
      (ChoFails.cons (r := ⟨0, some (.opErr [[98]] [97] 1 1 1), freshSV [97],
          ((freshCtx [97]).push).setErrorPos 0⟩) rfl rfl (ChoFails.nil _))
      rfl rfl
  exact h

theorem repLoop_characterize (pf : Ope → GStr → Nat → Values → Ctx → Out) (o : Ope)
    (s : GStr) (p sep : Nat) :
    ∀ (lfuel l : Nat) (v : Values) (c : Ctx) (r : PR),
      repLoop pf o s p sep lfuel l v c = .ok r →
      ∃ l' v' c', RepSteps pf o s p l v c l' v' c' ∧
        ((s.length ≤ p + l' ∧ r = ⟨l', none, v', c'⟩)
         ∨ (∃ rf, p + l' < s.length ∧ pf o s (p + l') v' c' = .ok rf
             ∧ rf.err.isSome = true
             ∧ r = ⟨l', none, { rf.v with Vs := v'.Vs, Ts := v'.Ts }, { rf.c with errorPos := sep }⟩)) := by
  intro lfuel
  induction lfuel with
  | zero =>
    intro l v c r h
    exact absurd h (by simp [repLoop])
  | succ n ih =>
    intro l v c r h
    simp only [repLoop] at h
    by_cases hin : p + l < s.length
    · rw [if_pos hin] at h
      cases hpf : pf o s (p + l) v c with
      | ok rr =>
        simp only [hpf] at h
        by_cases he : rr.err.isSome = true
        · rw [if_pos he] at h
          injection h with h
          exact ⟨l, v, c, RepSteps.refl l v c, Or.inr ⟨rr, hin, hpf, he, h.symm⟩⟩
        · rw [if_neg he] at h
          obtain ⟨l', v', c', hsteps, hrest⟩ := ih (l + rr.l) rr.v rr.c r h
          have hnone : rr.err = none := by
            cases hval : rr.err
            · rfl
            · rw [hval] at he
              simp at he
          exact ⟨l', v', c', RepSteps.step hin hpf hnone hsteps, hrest⟩
      | crash =>
        simp only [hpf] at h
        exact Out.noConfusion h
      | fuelOut =>
        simp only [hpf] at h
        exact Out.noConfusion h
    · rw [if_neg hin] at h
      injection h with h
      exact ⟨l, v, c, RepSteps.refl l v c, Or.inl ⟨by omega, h.symm⟩⟩

/-- C3 counterexample: for `Zom(Cho(Lit "ab", Lit "a"))` on "aac", the second
(successful) iteration raises `errorPos` to 1, so immediately before the
failing third iteration `errorPos` is 1; but the tolerated failure restores
the snapshot taken before the whole loop, and the final `errorPos` is 0, not
1 — the errorPos part of the triple is not snapshotted per iteration. -/
theorem rep_errorPos_snapshot_cex :
    (parse 9 (.cho [.lit [97, 98], .lit [97]]) [97, 97, 99] 0
        (freshSV [97, 97, 99]) (freshCtx [97, 97, 99])
      = .ok ⟨1, none, { freshSV [97, 97, 99] with Choice := 1 }, freshCtx [97, 97, 99]⟩)
    ∧ (parse 9 (.cho [.lit [97, 98], .lit [97]]) [97, 97, 99] 1
        { freshSV [97, 97, 99] with Choice := 1 } (freshCtx [97, 97, 99])
      = .ok ⟨1, none, { freshSV [97, 97, 99] with Choice := 1 },
          { freshCtx [97, 97, 99] with errorPos := 1 }⟩)
    ∧ (match parse 9 (.cho [.lit [97, 98], .lit [97]]) [97, 97, 99] 2
          { freshSV [97, 97, 99] with Choice := 1 }
          { freshCtx [97, 97, 99] with errorPos := 1 } with
        | .ok r => r.err.isSome = true
        | _ => False)
    ∧ (match parse 10 (.zom (.cho [.lit [97, 98], .lit [97]])) [97, 97, 99] 0
          (freshSV [97, 97, 99]) (freshCtx [97, 97, 99]) with
        | .ok r => r.l = 2 ∧ r.c.errorPos = 0 ∧ r.c.errorPos ≠ 1
        | _ => False) :=
  ⟨rfl, rfl, rfl, rfl, rfl, by decide⟩

/-- C3 (amended): in `zeroOrMore` and `oneOrMore`, `(v.Vs, v.Ts)` is
snapshotted before each iteration and restored on a tolerated child failure,
so `Vs` and `Ts` come back to their values immediately before the failing
iteration; `c.errorPos`, however, is snapshotted once — before the loop in
`zeroOrMore`, and right after the first (propagated) child in `oneOrMore` —
and is restored to that pre-loop value, not to its value immediately before
the failing iteration. -/
theorem rep_restore_semantics (fuel : Nat) (o : Ope) (s : GStr) (p : Nat)
    (v : Values) (c : Ctx) :
    (∀ r, parse (fuel + 1) (.zom o) s p v c = .ok r →
       ∃ l' v' c', RepSteps (parse fuel) o s p 0 v c l' v' c' ∧
         ((s.length ≤ p + l' ∧ r = ⟨l', none, v', c'⟩)
          ∨ (∃ rf, p + l' < s.length ∧ parse fuel o s (p + l') v' c' = .ok rf
              ∧ rf.err.isSome = true
              ∧ r = ⟨l', none, { rf.v with Vs := v'.Vs, Ts := v'.Ts }, { rf.c with errorPos := c.errorPos }⟩)))
    ∧ (∀ r1, parse fuel o s p v c = .ok r1 →
        (r1.err.isSome = true → parse (fuel + 1) (.oom o) s p v c = .ok r1)
        ∧ (r1.err = none → ∀ r, parse (fuel + 1) (.oom o) s p v c = .ok r →
            ∃ l' v' c', RepSteps (parse fuel) o s p r1.l r1.v r1.c l' v' c' ∧
              ((s.length ≤ p + l' ∧ r = ⟨l', none, v', c'⟩)
               ∨ (∃ rf, p + l' < s.length ∧ parse fuel o s (p + l') v' c' = .ok rf
                   ∧ rf.err.isSome = true
                   ∧ r = ⟨l', none, { rf.v with Vs := v'.Vs, Ts := v'.Ts }, { rf.c with errorPos := r1.c.errorPos }⟩)))) := by
  constructor
  · intro r h
    rw [parse_succ] at h
    simp only [parseCore] at h
    exact repLoop_characterize (parse fuel) o s p c.errorPos fuel 0 v c r h
  · intro r1 h1
    constructor
    · intro he
      rw [parse_succ]
      simp only [parseCore, h1, he, if_true]
    · intro he r h
      rw [parse_succ] at h
      simp only [parseCore, h1, he, Option.isSome_none, Bool.false_eq_true, if_false] at h
      exact repLoop_characterize (parse fuel) o s p r1.c.errorPos fuel r1.l r1.v r1.c r h

theorem rep_restore_semantics_inst :
    ∃ l' v' c', RepSteps (parse 8) (.lit [97]) [97, 98] 0 0
        (freshSV [97, 98]) (freshCtx [97, 98]) l' v' c' ∧
      (([97, 98] : GStr).length ≤ 0 + l'
          ∧ (⟨1, none, freshSV [97, 98], freshCtx [97, 98]⟩ : PR) = ⟨l', none, v', c'⟩
       ∨ (∃ rf, 0 + l' < ([97, 98] : GStr).length
           ∧ parse 8 (.lit [97]) [97, 98] (0 + l') v' c' = .ok rf
           ∧ rf.err.isSome = true
           ∧ (⟨1, none, freshSV [97, 98], freshCtx [97, 98]⟩ : PR)
               = ⟨l', none, { rf.v with Vs := v'.Vs, Ts := v'.Ts },
                   { rf.c with errorPos := (freshCtx [97, 98]).errorPos }⟩)) :=
  (rep_restore_semantics 8 (.lit [97]) [97, 98] 0 (freshSV [97, 98])
      (freshCtx [97, 98])).1
    ⟨1, none, freshSV [97, 98], freshCtx [97, 98]⟩ rfl

theorem svStack_setErrorPos (c : Ctx) (p : Nat) : (c.setErrorPos p).svStack = c.svStack := by
  unfold Ctx.setErrorPos
  split <;> rfl

theorem svStack_push_length (c : Ctx) : c.push.svStack.length = c.svStack.length + 1 := by
  simp [Ctx.push]

theorem svStack_pop_length (c : Ctx) : c.pop.svStack.length = c.svStack.length - 1 := by
  simp [Ctx.pop]

theorem seqLoop_depth (pf : Ope → GStr → Nat → Values → Ctx → Out)
    (hpf : PreservesDepth pf) :
    ∀ (opes : List Ope) (s : GStr) (p l : Nat) (v : Values) (c : Ctx) (r : PR),
      seqLoop pf s p opes l v c = .ok r → r.c.svStack.length = c.svStack.length := by
  intro opes
  induction opes with
  | nil =>
    intro s p l v c r h
    simp only [seqLoop] at h
    injection h with h
    rw [← h]
  | cons o rest ih =>
    intro s p l v c r h
    simp only [seqLoop] at h
    cases hc : pf o s (p + l) v c with
    | ok r1 =>
      simp only [hc] at h
      by_cases he : r1.err.isSome = true
      · rw [if_pos he] at h
        injection h with h
        rw [← h]
        show r1.c.svStack.length = c.svStack.length
        exact hpf _ _ _ _ _ _ hc
      · rw [if_neg he] at h
        rw [ih s p (l + r1.l) r1.v r1.c r h]
        exact hpf _ _ _ _ _ _ hc
    | crash =>
      simp only [hc] at h
      exact Out.noConfusion h
    | fuelOut =>
      simp only [hc] at h
      exact Out.noConfusion h

theorem choLoop_depth (pf : Ope → GStr → Nat → Values → Ctx → Out)
    (hpf : PreservesDepth pf) :
    ∀ (opes : List Ope) (s : GStr) (p idx : Nat) (acc : List Err) (v : Values)
      (c : Ctx) (r : PR),
      choLoop pf s p opes idx acc v c = .ok r → r.c.svStack.length = c.svStack.length := by
  intro opes
  induction opes with
  | nil =>
    intro s p idx acc v c r h
    simp only [choLoop] at h
    injection h with h
    rw [← h]
  | cons o rest ih =>
    intro s p idx acc v c r h
    simp only [choLoop] at h
    cases hc : pf o s p (freshSV c.s) c.push with
    | ok r1 =>
      simp only [hc] at h
      have hd : r1.c.svStack.length = c.svStack.length + 1 := by
        rw [hpf _ _ _ _ _ _ hc]
        exact svStack_push_length c
      cases he : r1.err with
      | none =>
        simp only [he] at h
        injection h with h
        rw [← h]
        show r1.c.pop.svStack.length = c.svStack.length
        rw [svStack_pop_length, hd]
        omega
      | some e =>
        simp only [he] at h
        rw [ih s p (idx + 1) (acc ++ [e]) v r1.c.pop r h]
        rw [svStack_pop_length, hd]
        omega
    | crash =>
      simp only [hc] at h
      exact Out.noConfusion h
    | fuelOut =>
      simp only [hc] at h
      exact Out.noConfusion h

theorem repLoop_depth (pf : Ope → GStr → Nat → Values → Ctx → Out)
    (hpf : PreservesDepth pf) (o : Ope) (s : GStr) (p sep : Nat) :
    ∀ (lfuel l : Nat) (v : Values) (c : Ctx) (r : PR),
      repLoop pf o s p sep lfuel l v c = .ok r → r.c.svStack.length = c.svStack.length := by
  intro lfuel
  induction lfuel with
  | zero =>
    intro l v c r h
    exact absurd h (by simp [repLoop])
  | succ n ih =>
    intro l v c r h
    simp only [repLoop] at h
    by_cases hin : p + l < s.length
    · rw [if_pos hin] at h
      cases hc : pf o s (p + l) v c with
      | ok r1 =>
        simp only [hc] at h
        by_cases he : r1.err.isSome = true
        · rw [if_pos he] at h
          injection h with h
          rw [← h]
          show r1.c.svStack.length = c.svStack.length
          exact hpf _ _ _ _ _ _ hc
        · rw [if_neg he] at h
          rw [ih (l + r1.l) r1.v r1.c r h]
          exact hpf _ _ _ _ _ _ hc
      | crash =>
        simp only [hc] at h
        exact Out.noConfusion h
      | fuelOut =>
        simp only [hc] at h
        exact Out.noConfusion h
    · rw [if_neg hin] at h
      injection h with h
      rw [← h]

theorem litTail_depth (pf : Ope → GStr → Nat → Values → Ctx → Out)
    (hpf : PreservesDepth pf) (s : GStr) (p l : Nat) (v : Values) (c : Ctx) (r : PR)
    (h : litTail pf s p l v c = .ok r) : r.c.svStack.length = c.svStack.length := by
  unfold litTail at h
  by_cases ht : c.inToken = false
  · rw [if_pos ht] at h
    cases hws : c.whitespaceOpe with
    | some wo =>
      simp only [hws] at h
      cases hc : pf wo s (p + l) v c with
      | ok rw1 =>
        simp only [hc] at h
        by_cases he : rw1.err.isSome = true
        · rw [if_pos he] at h
          injection h with h
          rw [← h]
          show rw1.c.svStack.length = c.svStack.length
          exact hpf _ _ _ _ _ _ hc
        · rw [if_neg he] at h
          injection h with h
          rw [← h]
          show rw1.c.svStack.length = c.svStack.length
          exact hpf _ _ _ _ _ _ hc
      | crash =>
        simp only [hc] at h
        exact Out.noConfusion h
      | fuelOut =>
        simp only [hc] at h
        exact Out.noConfusion h
    | none =>
      simp only [hws] at h
      injection h with h
      rw [← h]
  · rw [if_neg ht] at h
    injection h with h
    rw [← h]

/-- C7: for every operator, input and context, evaluation leaves the SV stack
depth unchanged — the length of `svStack` after a normal return (success or
failure) equals its length before, because every push performed inside (by
prioritized choice, the predicates, and ignore) is paired with a pop on every
exit path. -/
theorem parse_svStack_depth :
    ∀ (fuel : Nat) (o : Ope) (s : GStr) (p : Nat) (v : Values) (c : Ctx) (r : PR),
      parse fuel o s p v c = .ok r → r.c.svStack.length = c.svStack.length := by
  intro fuel
  induction fuel with
  | zero =>
    intro o s p v c r h
    exact Out.noConfusion h
  | succ fuel ih =>
    intro o s p v c r h
    rw [parse_succ] at h
    cases o with
    | seq opes =>
      simp only [parseCore] at h
      exact seqLoop_depth _ ih opes s p 0 v c r h
    | cho opes =>
      simp only [parseCore] at h
      exact choLoop_depth _ ih opes s p 0 [] v c r h
    | zom o1 =>
      simp only [parseCore] at h
      exact repLoop_depth _ ih o1 s p c.errorPos fuel 0 v c r h
    | oom o1 =>
      simp only [parseCore] at h
      cases hc : parse fuel o1 s p v c with
      | ok r1 =>
        simp only [hc] at h
        by_cases he : r1.err.isSome = true
        · rw [if_pos he] at h
          injection h with h
          rw [← h]
          exact ih _ _ _ _ _ _ hc
        · rw [if_neg he] at h
          rw [repLoop_depth _ ih o1 s p r1.c.errorPos fuel r1.l r1.v r1.c r h]
          exact ih _ _ _ _ _ _ hc
      | crash =>
        simp only [hc] at h
        exact Out.noConfusion h
      | fuelOut =>
        simp only [hc] at h
        exact Out.noConfusion h
    | opt o1 =>
      simp only [parseCore] at h
      cases hc : parse fuel o1 s p v c with
      | ok r1 =>
        simp only [hc] at h
        by_cases he : r1.err.isSome = true
        · rw [if_pos he] at h
          injection h with h
          rw [← h]
          show r1.c.svStack.length = c.svStack.length
          exact ih _ _ _ _ _ _ hc
        · rw [if_neg he] at h
          injection h with h
          rw [← h]
          show r1.c.svStack.length = c.svStack.length
          exact ih _ _ _ _ _ _ hc
      | crash =>
        simp only [hc] at h
        exact Out.noConfusion h
      | fuelOut =>
        simp only [hc] at h
        exact Out.noConfusion h
    | apd o1 =>
      simp only [parseCore] at h
      cases hc : parse fuel o1 s p (freshSV c.s) c.push with
      | ok r1 =>
        simp only [hc] at h
        injection h with h
        rw [← h]
        show r1.c.pop.svStack.length = c.svStack.length
        rw [svStack_pop_length, ih _ _ _ _ _ _ hc, svStack_push_length]
        omega
      | crash =>
        simp only [hc] at h
        exact Out.noConfusion h
      | fuelOut =>
        simp only [hc] at h
        exact Out.noConfusion h
    | npd o1 =>
      simp only [parseCore] at h
      cases hc : parse fuel o1 s p (freshSV c.s) c.push with
      | ok r1 =>
        simp only [hc] at h
        have hd : r1.c.pop.svStack.length = c.svStack.length := by
          rw [svStack_pop_length, ih _ _ _ _ _ _ hc, svStack_push_length]
          omega
        cases he : r1.err with
        | none =>
          simp only [he] at h
          injection h with h
          rw [← h]
          show (r1.c.pop.setErrorPos p).svStack.length = c.svStack.length
          rw [svStack_setErrorPos]
          exact hd
        | some e =>
          simp only [he] at h
          injection h with h
          rw [← h]
          exact hd
      | crash =>
        simp only [hc] at h
        exact Out.noConfusion h
      | fuelOut =>
        simp only [hc] at h
        exact Out.noConfusion h
    | lit li =>
      simp only [parseCore] at h
      cases hscan : litScan s p li with
      | oob =>
        simp only [hscan] at h
        exact Out.noConfusion h
      | miss =>
        simp only [hscan] at h
        injection h with h
        rw [← h]
        show (c.setErrorPos p).svStack.length = c.svStack.length
        rw [svStack_setErrorPos]
      | hit =>
        simp only [hscan] at h
        cases hw : c.wordOpe with
        | none =>
          simp only [hw] at h
          exact litTail_depth _ ih s p li.length v c r h
        | some w =>
          simp only [hw] at h
          cases hprobe : parse fuel w li 0 (freshSV []) (freshCtx s) with
          | ok rp =>
            simp only [hprobe] at h
            by_cases hpw : rp.err.isSome = true
            · rw [if_pos hpw] at h
              exact litTail_depth _ ih s p li.length v c r h
            · rw [if_neg hpw] at h
              cases hb : parse fuel (.npd w) s (p + li.length) v (freshCtx s) with
              | ok rb =>
                simp only [hb] at h
                by_cases hbe : rb.err.isSome = true
                · rw [if_pos hbe] at h
                  injection h with h
                  rw [← h]
                · rw [if_neg hbe] at h
                  exact litTail_depth _ ih s p (li.length + rb.l) rb.v c r h
              | crash =>
                simp only [hb] at h
                exact Out.noConfusion h
              | fuelOut =>
                simp only [hb] at h
                exact Out.noConfusion h
          | crash =>
            simp only [hprobe] at h
            exact Out.noConfusion h
          | fuelOut =>
            simp only [hprobe] at h
            exact Out.noConfusion h
    | cls chars =>
      simp only [parseCore] at h
      by_cases hend : s.length - p < 1
      · rw [if_pos hend] at h
        injection h with h
        rw [← h]
        show (c.setErrorPos p).svStack.length = c.svStack.length
        rw [svStack_setErrorPos]
      · rw [if_neg hend] at h
        by_cases hm : clsMatch chars (sAt s p) = true
        · rw [if_pos hm] at h
          injection h with h
          rw [← h]
        · rw [if_neg hm] at h
          injection h with h
          rw [← h]
          show (c.setErrorPos p).svStack.length = c.svStack.length
          rw [svStack_setErrorPos]
    | dot =>
      simp only [parseCore] at h
      by_cases hend : s.length - p < 1
      · rw [if_pos hend] at h
        injection h with h
        rw [← h]
        show (c.setErrorPos p).svStack.length = c.svStack.length
        rw [svStack_setErrorPos]
      · rw [if_neg hend] at h
        injection h with h
        rw [← h]
    | tok o1 =>
      simp only [parseCore] at h
      cases hc : parse fuel o1 s p v { c with inToken := true } with
      | ok r1 =>
        simp only [hc] at h
        have hd : r1.c.svStack.length = c.svStack.length :=
          ih _ _ _ _ { c with inToken := true } _ hc
        by_cases he : r1.err.isSome = true
        · rw [if_pos he] at h
          injection h with h
          rw [← h]
          exact hd
        · rw [if_neg he] at h
          by_cases hlt : s.length < p + r1.l
          · rw [if_pos hlt] at h
            exact Out.noConfusion h
          · rw [if_neg hlt] at h
            split at h
            · rename_i wo hws
              split at h
              · rename_i rw1 heq
                by_cases hwe : rw1.err.isSome = true
                · rw [if_pos hwe] at h
                  injection h with h
                  rw [← h]
                  show rw1.c.svStack.length = c.svStack.length
                  rw [ih _ _ _ _ _ _ heq]
                  exact hd
                · rw [if_neg hwe] at h
                  injection h with h
                  rw [← h]
                  show rw1.c.svStack.length = c.svStack.length
                  rw [ih _ _ _ _ _ _ heq]
                  exact hd
              · rename_i hne
                exact absurd h (hne r)
            · injection h with h
              rw [← h]
              exact hd
      | crash =>
        simp only [hc] at h
        exact Out.noConfusion h
      | fuelOut =>
        simp only [hc] at h
        exact Out.noConfusion h
    | ign o1 =>
      simp only [parseCore] at h
      cases hc : parse fuel o1 s p (freshSV c.s) c.push with
      | ok r1 =>
        simp only [hc] at h
        injection h with h
        rw [← h]
        show r1.c.pop.svStack.length = c.svStack.length
        rw [svStack_pop_length, ih _ _ _ _ _ _ hc, svStack_push_length]
        omega
      | crash =>
        simp only [hc] at h
        exact Out.noConfusion h
      | fuelOut =>
        simp only [hc] at h
        exact Out.noConfusion h
    | wsp o1 =>
      simp only [parseCore] at h
      by_cases hin : c.inWhitespace
      · rw [if_pos hin] at h
        injection h with h
        rw [← h]
      · rw [if_neg hin] at h
        cases hc : parse fuel o1 s p v { c with inWhitespace := true } with
        | ok r1 =>
          simp only [hc] at h
          injection h with h
          rw [← h]
          show r1.c.svStack.length = c.svStack.length
          exact ih _ _ _ _ { c with inWhitespace := true } _ hc
        | crash =>
          simp only [hc] at h
          exact Out.noConfusion h
        | fuelOut =>
          simp only [hc] at h
          exact Out.noConfusion h
    | usr fn =>
      simp only [parseCore] at h
      rcases hfn : fn s p v with ⟨v2, l2, e2⟩
      simp only [hfn] at h
      injection h with h
      rw [← h]
    | refParam iarg =>
      simp only [parseCore] at h
      cases hget : (c.topArg.getD []).get? iarg with
      | some a =>
        simp only [hget] at h
        exact ih _ _ _ _ _ _ h
      | none =>
        simp only [hget] at h
        exact Out.noConfusion h

theorem parse_svStack_depth_inst :
    ((⟨1, none, freshSV [97], ((freshCtx [97]).push).pop⟩ : PR)).c.svStack.length
      = (freshCtx [97]).svStack.length :=
  parse_svStack_depth 2 (.ign .dot) [97] 0 (freshSV [97]) (freshCtx [97])
    ⟨1, none, freshSV [97], ((freshCtx [97]).push).pop⟩ rfl

theorem repLoop_zero_progress (o : Ope) (s : GStr) (p : Nat) (hp : p < s.length)
    (pfuel : Nat)
    (hz : ∀ (v' : Values) (c' : Ctx), parse pfuel o s p v' c' = .fuelOut
            ∨ ∃ v'' c'', parse pfuel o s p v' c' = .ok ⟨0, none, v'', c''⟩) :
    ∀ lfuel sep (v : Values) (c : Ctx),
      repLoop (parse pfuel) o s p sep lfuel 0 v c = .fuelOut := by
  intro lfuel
  induction lfuel with
  | zero =>
    intro sep v c
    rfl
  | succ n ih =>
    intro sep v c
    rcases hz v c with h | ⟨v'', c'', h⟩
    · simp only [repLoop, Nat.add_zero]
      rw [if_pos hp, h]
    · simp only [repLoop, Nat.add_zero]
      rw [if_pos hp, h]
      exact ih sep v'' c''

/-- C9: the repetition loops iterate while `p + l < len(s)` with no
zero-length-progress guard, so a child that, at a position strictly before the
end of input, only ever succeeds consuming zero bytes (for example `Opt` of a
failing operator, or a predicate) makes `zeroOrMore` and `oneOrMore` run
forever: every amount of fuel yields `fuelOut`. -/
theorem rep_zero_progress_diverges (o : Ope) (s : GStr) (p : Nat) (v : Values) (c : Ctx)
    (hp : p < s.length)
    (hz : ∀ f (v' : Values) (c' : Ctx), parse f o s p v' c' = .fuelOut
            ∨ ∃ v'' c'', parse f o s p v' c' = .ok ⟨0, none, v'', c''⟩) :
    (∀ fuel, parse fuel (.zom o) s p v c = .fuelOut)
    ∧ (∀ fuel, parse fuel (.oom o) s p v c = .fuelOut) := by
  constructor
  · intro fuel
    match fuel with
    | 0 => rfl
    | fuel + 1 =>
      rw [parse_succ]
      simp only [parseCore]
      exact repLoop_zero_progress o s p hp fuel (hz fuel) fuel c.errorPos v c
  · intro fuel
    match fuel with
    | 0 => rfl
    | fuel + 1 =>
      rw [parse_succ]
      rcases hz fuel v c with h | ⟨v'', c'', h⟩
      · simp only [parseCore, h]
      · simp only [parseCore, h, Option.isSome_none, Bool.false_eq_true, if_false]
        exact repLoop_zero_progress o s p hp fuel (hz fuel) fuel _ v'' c''

theorem rep_zero_progress_diverges_inst :
    parse 9 (.zom (.opt (.lit [98]))) [97] 0 (freshSV [97]) (freshCtx [97]) = .fuelOut := by
  have hz : ∀ f (v' : Values) (c' : Ctx),
      parse f (.opt (.lit [98])) [97] 0 v' c' = .fuelOut
      ∨ ∃ v'' c'', parse f (.opt (.lit [98])) [97] 0 v' c' = .ok ⟨0, none, v'', c''⟩ := by
    intro f v' c'
    match f with
    | 0 => exact Or.inl rfl
    | 1 => exact Or.inl rfl
    | n + 2 =>
      exact Or.inr ⟨v', { Ctx.setErrorPos c' 0 with errorPos := c'.errorPos }, rfl⟩
  exact (rep_zero_progress_diverges (.opt (.lit [98])) [97] 0 (freshSV [97]) (freshCtx [97])
    (by decide) hz).1 9

theorem tok_semantics_inst :
    parse 4 (.tok (.lit [97])) [97, 98] 0 (freshSV [97, 98]) (freshCtx [97, 98])
      = .ok ⟨1, none, { freshSV [97, 98] with Ts := [⟨0, [97]⟩] }, freshCtx [97, 98]⟩ :=
  ((tok_semantics 3 (.lit [97]) [97, 98] 0 (freshSV [97, 98]) (freshCtx [97, 98])
      ⟨1, none, freshSV [97, 98], { freshCtx [97, 98] with inToken := true }⟩ rfl).2
    rfl (by decide)).1 rfl

end Peg
